import Mathlib

/-
Verification development for the DM / DMDA scheduler core of this repository
(src/basic-src/pi.c).  The C code is shallowly embedded: IEEE doubles become
`Option ℚ` with `none` playing the role of NaN (the embedded paths never
produce infinities), the per-worker FIFO becomes an explicit record, and the
decision loops become folds over an explicit candidate list.
-/

set_option maxHeartbeats 1000000

/-- Model of a C `double`: `some q` is the finite value `q`, `none` is NaN. -/
abbrev Fl : Type := Option ℚ

/-- NaN-propagating addition of doubles. -/
def fadd : Fl → Fl → Fl
  | some a, some b => some (a + b)
  | _, _ => none

/-- NaN-propagating subtraction of doubles. -/
def fsub : Fl → Fl → Fl
  | some a, some b => some (a - b)
  | _, _ => none

/-- NaN-propagating multiplication of doubles. -/
def fmul : Fl → Fl → Fl
  | some a, some b => some (a * b)
  | _, _ => none

/-- NaN-propagating division of doubles.  The embedded code never divides by
zero on the paths where `fdiv` is used (the divisor is the constant 1e6 or a
value `1 + length` with a positive length). -/
def fdiv : Fl → Fl → Fl
  | some a, some b => some (a / b)
  | _, _ => none

/-- C `<` on doubles: any comparison with NaN is false. -/
def flLt : Fl → Fl → Bool
  | some a, some b => decide (a < b)
  | _, _ => false

/-- STARPU_MAX(a,b) is the C expression `((a) < (b) ? (b) : (a))`. -/
def flMax (a b : Fl) : Fl := if flLt a b then b else a

/-- Value of `DBL_MAX`, used to initialize `best_exp_end` in
`compute_all_performance_predictions`. -/
def dblMax : ℚ := (2 ^ 53 - 1) * 2 ^ 971

/-- Value of `DBL_MIN` (smallest positive normal double), used to initialize
`max_exp_end` in `compute_all_performance_predictions`. -/
def dblMin : ℚ := 1 / 2 ^ 1022

/-- A task as the scheduler sees it.  `buffers` records, for each data handle
of the task, the `is_valid` bit reported by `starpu_data_query_status` at the
memory node the popping worker uses (the node is fixed during one call, so the
query results are pre-resolved into the list). -/
structure STask where
  id : Nat
  priority : Int
  buffers : List Bool
  deriving DecidableEq, Repr

/-- Embedding of `count_non_ready_buffers` (pi.c lines 117-140): the number of
buffers whose handle reports `is_valid == false` at the queried node. -/
def countNonReadyBuffers (t : STask) : Nat :=
  (t.buffers.filter (fun b => !b)).length

/-- Per-worker FIFO state (`struct _starpu_fifo_taskq`), restricted to the
fields the embedded operations touch.  The optional per-priority arrays
`exp_len_per_priority` / `ntasks_per_priority` are not modelled: no embedded
claim mentions them and they never feed back into the fields below. -/
structure FifoState where
  taskq : List STask
  ntasks : Int
  nprocessed : Int
  expStart : Fl
  expLen : Fl
  expEnd : Fl
  deriving DecidableEq, Repr

/-- Modelled from the spec: `_starpu_fifo_push_sorted_task` lives in
fifo_queues.c, which is not under src/; §4.1 of the spec describes it as a
stable priority-descending insert that keeps `ntasks = |sequence|`. -/
def fifoPushSortedTask (t : STask) : List STask → List STask
  | [] => [t]
  | h :: rest =>
      if h.priority < t.priority then t :: h :: rest
      else h :: fifoPushSortedTask t rest

/-- Embedding of `push_task_on_best_worker` (pi.c lines 305-430) for one
fifo.  `masterChild` is the test `child_sched_ctx != STARPU_NMAX_SCHED_CTXS`
(delegation to a child context, lines 312-318).  `sortedRet` is the value the
external `_starpu_fifo_push_sorted_task` returns on the `prio` path.  Returns
the C return value paired with the updated fifo. -/
def pushTaskOnBestWorker (now : ℚ) (t : STask) (predicted predictedTransfer : Fl)
    (prio : Bool) (masterChild : Bool) (sortedRet : Int) (fifo : FifoState) :
    Int × FifoState :=
  if masterChild then (0, fifo)
  else
    let es := if fifo.expStart = none then some now else flMax fifo.expStart (some now)
    let ee := fadd es fifo.expLen
    let pt :=
      if flLt (fadd (some now) predictedTransfer) ee then some 0
      else fsub (fadd (some now) predictedTransfer) ee
    let ee1 := if pt ≠ none then fadd ee pt else ee
    let el1 := if pt ≠ none then fadd fifo.expLen pt else fifo.expLen
    let ee2 := if predicted ≠ none then fadd ee1 predicted else ee1
    let el2 := if predicted ≠ none then fadd el1 predicted else el1
    let fifo1 := { fifo with expStart := es, expLen := el2, expEnd := ee2 }
    if prio then
      (sortedRet, { fifo1 with taskq := fifoPushSortedTask t fifo1.taskq,
                               ntasks := fifo1.ntasks + 1,
                               nprocessed := fifo1.nprocessed + 1 })
    else
      (0, { fifo1 with taskq := fifo1.taskq ++ [t],
                       ntasks := fifo1.ntasks + 1,
                       nprocessed := fifo1.nprocessed + 1 })

/-- Embedding of `dmda_pre_exec_hook` (pi.c lines 1165-1218): subtract the
transfer model from `exp_len`, subtract the compute model from `exp_len` and
add it to `exp_start`, then recompute `exp_end`. -/
def dmdaPreExecHook (now : ℚ) (model transferModel : Fl) (fifo : FifoState) :
    FifoState :=
  let es0 := flMax (some now) fifo.expStart
  let el1 := if transferModel ≠ none then fsub fifo.expLen transferModel else fifo.expLen
  let el2 := if model ≠ none then fsub el1 model else el1
  let es2 := if model ≠ none then fadd es0 model else es0
  { fifo with expStart := es2, expLen := el2, expEnd := fadd es2 el2 }

/-- Embedding of `dmda_post_exec_hook` (pi.c lines 1299-1312). -/
def dmdaPostExecHook (now : ℚ) (fifo : FifoState) : FifoState :=
  { fifo with expStart := some now, expEnd := fadd (some now) fifo.expLen }

/-- Embedding of `dmda_push_task_notify` (pi.c lines 1220-1297), restricted to
the fifo fields (the per-priority arrays are not modelled). -/
def dmdaPushTaskNotify (now : ℚ) (predicted predictedTransfer : Fl)
    (fifo : FifoState) : FifoState :=
  let es := if fifo.expStart = none then some now else flMax fifo.expStart (some now)
  let ee := fadd es fifo.expLen
  let ee1 :=
    if predictedTransfer ≠ none then
      fadd ee (if flLt (fadd (some now) predictedTransfer) ee then some 0
               else fsub (fadd (some now) predictedTransfer) ee)
    else ee
  let el1 :=
    if predictedTransfer ≠ none then
      fadd fifo.expLen (if flLt (fadd (some now) predictedTransfer) ee then some 0
                        else fsub (fadd (some now) predictedTransfer) ee)
    else fifo.expLen
  let ee2 := if predicted ≠ none then fadd ee1 predicted else ee1
  let el2 := if predicted ≠ none then fadd el1 predicted else el1
  { fifo with expStart := es, expLen := el2, expEnd := ee2,
              ntasks := fifo.ntasks + 1 }

/-- Comparison against the running minimum of non-ready counts.  The C code
initializes `non_ready_best` with `INT_MAX`; `none` plays that role (every
actual count, bounded by the number of buffers of a task, is below INT_MAX). -/
def ltO (n : Nat) : Option Nat → Bool
  | none => true
  | some m => decide (n < m)

/-- The scanning loop of `_starpu_fifo_pop_first_ready_task` (pi.c lines
179-201): walk the queue, consider tasks whose priority is at least the head's
priority, keep the one with the strictly smallest non-ready count so far, and
stop at the first considered task with a zero count. -/
def selectReady (p : Int) : List STask → STask → Option Nat → STask
  | [], best, _ => best
  | c :: cs, best, bc =>
      if p ≤ c.priority then
        if ltO (countNonReadyBuffers c) bc then
          if countNonReadyBuffers c = 0 then c
          else selectReady p cs c (some (countNonReadyBuffers c))
        else selectReady p cs best bc
      else selectReady p cs best bc

/-- Embedding of `_starpu_fifo_pop_first_ready_task` (pi.c lines 162-215),
without the per-priority bucket decrements.  Returns the popped task (if any)
and the updated fifo. -/
def starpuFifoPopFirstReadyTask (fifo : FifoState) : Option STask × FifoState :=
  if fifo.ntasks = 0 then (none, fifo)
  else
    match fifo.taskq with
    | [] => (none, { fifo with ntasks := fifo.ntasks - 1 })
    | h :: rest =>
        let t := selectReady h.priority (h :: rest) h none
        (some t, { fifo with ntasks := fifo.ntasks - 1,
                             taskq := (h :: rest).erase t })

/-- The horizon refresh shared by `dmda_pop_ready_task`, `dmda_pop_task` and
`dmda_pop_every_task` (pi.c lines 229-230, 260-261, 293-294). -/
def dmdaPopUpdate (now : ℚ) (fifo : FifoState) : FifoState :=
  let es := flMax (some now) fifo.expStart
  { fifo with expStart := es, expEnd := fadd es fifo.expLen }

/-- Embedding of `dmda_pop_ready_task` (pi.c lines 217-248): refresh the
horizon, then pop the first ready task. -/
def dmdaPopReadyTask (now : ℚ) (fifo : FifoState) : Option STask × FifoState :=
  starpuFifoPopFirstReadyTask (dmdaPopUpdate now fifo)

/-- Modelled from the spec: `_starpu_fifo_pop_local_task` lives in
fifo_queues.c, which is not under src/; §4.1 exposes it as `pop_front()`.
Used by `dmda_pop_task` (pi.c lines 250-281) after the horizon refresh. -/
def dmdaPopTask (now : ℚ) (fifo : FifoState) : Option STask × FifoState :=
  let f := dmdaPopUpdate now fifo
  match f.taskq with
  | [] => (none, f)
  | h :: rest => (some h, { f with taskq := rest, ntasks := f.ntasks - 1 })

/-- Modelled from the spec: `_starpu_fifo_pop_every_task` lives in
fifo_queues.c, which is not under src/; §4.1 says `pop_all` returns the whole
sequence and empties the queue.  Used by `dmda_pop_every_task` (pi.c lines
283-303) after the horizon refresh. -/
def dmdaPopEveryTask (now : ℚ) (fifo : FifoState) : List STask × FifoState :=
  let f := dmdaPopUpdate now fifo
  (f.taskq, { f with taskq := [], ntasks := 0 })

/-- One mutating scheduler operation on a worker FIFO, as enumerated by the
spec's horizon invariant: the commit of `push_task_on_best_worker`, the two
execution hooks, the external-push notification, and the pops. -/
inductive FifoOp where
  | pushCommit (now : ℚ) (t : STask) (predicted predictedTransfer : Fl)
      (prio : Bool) (sortedRet : Int)
  | preExec (now : ℚ) (model transferModel : Fl)
  | postExec (now : ℚ)
  | notify (now : ℚ) (predicted predictedTransfer : Fl)
  | popReady (now : ℚ)
  | popLocal (now : ℚ)
  | popEvery (now : ℚ)

/-- Apply a mutating operation to a FIFO (the `pushCommit` case is the
non-delegation path of `push_task_on_best_worker`). -/
def applyFifoOp : FifoOp → FifoState → FifoState
  | .pushCommit now t p pt prio r, f => (pushTaskOnBestWorker now t p pt prio false r f).2
  | .preExec now m tm, f => dmdaPreExecHook now m tm f
  | .postExec now, f => dmdaPostExecHook now f
  | .notify now p pt, f => dmdaPushTaskNotify now p pt f
  | .popReady now, f => (dmdaPopReadyTask now f).2
  | .popLocal now, f => (dmdaPopTask now f).2
  | .popEvery now, f => (dmdaPopEveryTask now f).2

/-- STARPU_MAXIMPLEMENTATIONS: bound of the per-codelet implementation loops
(value of the StarPU build configuration). -/
def maxImpls : Nat := 4

/-- Oracle and state data for one worker, as seen by one scheduling decision
for one fixed task.  The list-valued fields are indexed by implementation
number (below `maxImpls`). -/
structure WorkerD where
  canExec : Bool
  masterChild : Bool
  mask : List Bool
  len : List Fl
  conv : List Fl
  energy : List Fl
  penalty : Fl
  speedup : ℚ
  fifo : FifoState
  deriving DecidableEq, Repr

/-- Bit `i` of the worker's `impl_mask`. -/
def maskAt (w : WorkerD) (i : Nat) : Bool := w.mask.getD i false

/-- Oracle `starpu_task_expected_length(task, arch(w), i)`. -/
def lenAt (w : WorkerD) (i : Nat) : Fl := w.len.getD i none

/-- Oracle `starpu_task_expected_conversion_time(task, arch(w), i)`. -/
def convAt (w : WorkerD) (i : Nat) : Fl := w.conv.getD i none

/-- Oracle `starpu_task_expected_energy(task, arch(w), i)`. -/
def energyAt (w : WorkerD) (i : Nat) : Fl := w.energy.getD i none

/-- The per-worker refresh `isnan(exp_start) ? now : STARPU_MAX(exp_start, now)`
(pi.c lines 466 and 625). -/
def expStartOf (now : ℚ) (w : WorkerD) : Fl :=
  if w.fifo.expStart = none then some now else flMax w.fifo.expStart (some now)

/-- The greedy-calibration score `fifo->ntasks / relative_speedup(arch)`. -/
def ntasksEndOf (w : WorkerD) : ℚ := (w.fifo.ntasks : ℚ) / w.speedup

/-- List of elements paired with increasing indices starting at `n`. -/
def withIdx {α : Type} : Nat → List α → List (Nat × α)
  | _, [] => []
  | n, x :: xs => (n, x) :: withIdx (n + 1) xs

/-- Implementations the mask enables for a worker. -/
def implIdxs (w : WorkerD) : List Nat :=
  (List.range maxImpls).filter (fun i => maskAt w i)

/-- Candidate (worker id, worker, implementation) triples visited by the
`_dm_push_task` double loop (pi.c lines 458-477), in iteration order. -/
def dmCands (ws : List WorkerD) : List (Nat × WorkerD × Nat) :=
  (withIdx 0 ws).bind
    (fun p => if p.2.canExec then (implIdxs p.2).map (fun i => (p.1, p.2, i)) else [])

/-- Loop state of `_dm_push_task` (pi.c lines 437-450). -/
structure DmAcc where
  best : Int
  bestExpEnd : Fl
  modelBest : Fl
  transferModelBest : Fl
  ntasksBest : Int
  ntasksBestEnd : ℚ
  calibrating : Bool
  unknown : Bool
  bestImpl : Nat
  deriving DecidableEq, Repr

/-- Initial loop state of `_dm_push_task`. -/
def dmInit : DmAcc :=
  { best := -1, bestExpEnd := some 0, modelBest := some 0,
    transferModelBest := some 0, ntasksBest := -1, ntasksBestEnd := 0,
    calibrating := false, unknown := false, bestImpl := 0 }

/-- Body of the `_dm_push_task` candidate loop (pi.c lines 479-554). -/
def dmStep (now : ℚ) (acc : DmAcc) (c : Nat × WorkerD × Nat) : DmAcc :=
  let wid := c.1
  let w := c.2.1
  let i := c.2.2
  let es := expStartOf now w
  let ll := lenAt w i
  let ne := ntasksEndOf w
  let acc1 :=
    if acc.ntasksBest = -1
        ∨ (¬acc.calibrating ∧ ne < acc.ntasksBestEnd)
        ∨ (¬acc.calibrating ∧ ll = none)
        ∨ (acc.calibrating ∧ ll = none ∧ ne < acc.ntasksBestEnd) then
      { acc with ntasksBestEnd := ne, ntasksBest := (wid : Int), bestImpl := i }
    else acc
  let acc2 := if ll = none then { acc1 with calibrating := true } else acc1
  let acc3 := if ll = none ∨ ll = some 0 then { acc2 with unknown := true } else acc2
  if acc3.unknown then acc3
  else
    let ee := fadd (fadd es w.fifo.expLen) ll
    if acc3.best = -1 ∨ flLt ee acc3.bestExpEnd then
      { acc3 with bestExpEnd := ee, best := (wid : Int), modelBest := ll,
                  transferModelBest := w.penalty, bestImpl := i }
    else acc3

/-- The `_dm_push_task` loop result before the unknown-model overwrite. -/
def dmDecideRaw (now : ℚ) (ws : List WorkerD) : DmAcc :=
  (dmCands ws).foldl (dmStep now) dmInit

/-- Embedding of the decision part of `_dm_push_task` (pi.c lines 433-575):
run the loop, then, if any candidate had unknown length, commit the greedy
candidate with zero models (lines 557-565). -/
def dmDecide (now : ℚ) (ws : List WorkerD) : DmAcc :=
  let a := dmDecideRaw now ws
  if a.unknown then
    { a with best := a.ntasksBest, modelBest := some 0, transferModelBest := some 0 }
  else a

/-- A candidate of the DMDA loops: worker id, position `worker_ctx` among the
workers that pass `starpu_worker_can_execute_task_impl`, the worker's data,
and the implementation number. -/
structure Cand where
  wid : Nat
  ctx : Nat
  w : WorkerD
  impl : Nat
  deriving DecidableEq, Repr

/-- Key of a candidate into the `[nworkers][STARPU_MAXIMPLEMENTATIONS]`
arrays.  Int-valued so that the out-of-range read at `best_in_ctx = -1` is
expressible. -/
def candKey (c : Cand) : Int × Int := ((c.ctx : Int), (c.impl : Int))

/-- Candidates visited by `compute_all_performance_predictions` and by the
fitness loop of `_dmda_push_task`, in iteration order.  `worker_ctx` advances
only past workers that can execute the task (the `continue` at pi.c line 627
skips the increment at line 747). -/
def dmdaCands (ws : List WorkerD) : List Cand :=
  (withIdx 0 ((withIdx 0 ws).filter (fun p => p.2.canExec))).bind
    (fun q => (implIdxs q.2.2).map (fun i => ⟨q.2.1, q.1, q.2.2, i⟩))

/-- A C stack array indexed by `(worker_ctx, impl)`, modelled as the list of
writes (most recent first); a key never written reads as `none` (the C value
would be indeterminate, or lie out of bounds for negative indices). -/
abbrev Tbl : Type := List ((Int × Int) × Fl)

/-- Read a table at a key: the most recent write, if any. -/
def tget (t : Tbl) (k : Int × Int) : Option Fl :=
  (t.find? (fun e => e.1 = k)).map (fun e => e.2)

/-- The task length used by the DMDA loop: `starpu_task_expected_length` plus
the conversion time when the latter is positive (pi.c lines 675-680; the
tasks of this program carry no bundle, so the non-bundle branch is taken). -/
def lenConvOf (c : Cand) : Fl :=
  if flLt (some 0) (convAt c.w c.impl) then fadd (lenAt c.w c.impl) (convAt c.w c.impl)
  else lenAt c.w c.impl

/-- The value `exp_end[worker_ctx][nimpl]` holds after pi.c line 659. -/
def candExpEndPrev (now : ℚ) (c : Cand) : Fl :=
  fadd (expStartOf now c.w) c.w.fifo.expLen

/-- The value `exp_end[worker_ctx][nimpl]` holds after pi.c line 734. -/
def candExpEnd (now : ℚ) (c : Cand) : Fl :=
  fadd (fadd (expStartOf now c.w) c.w.fifo.expLen) (lenConvOf c)

/-- A candidate whose (conversion-adjusted) length is NaN or exactly zero;
such a candidate sets the `unknown` flag (pi.c lines 725-729). -/
def badLen (c : Cand) : Prop := lenConvOf c = none ∨ lenConvOf c = some 0

instance : DecidablePred badLen := fun c => by unfold badLen; infer_instance

/-- Loop state of `compute_all_performance_predictions` (pi.c lines 588-596),
together with the four stack arrays it fills. -/
structure PredState where
  ltl : Tbl
  eet : Tbl
  ldp : Tbl
  le : Tbl
  maxExpEnd : Fl
  bestExpEnd : Fl
  ntasksBest : Int
  nimplBest : Nat
  ntasksBestEnd : ℚ
  calibrating : Bool
  unknown : Bool
  deriving DecidableEq, Repr

/-- Initial state of `compute_all_performance_predictions`. -/
def predInit : PredState :=
  { ltl := [], eet := [], ldp := [], le := [],
    maxExpEnd := some dblMin, bestExpEnd := some dblMax,
    ntasksBest := -1, nimplBest := 0, ntasksBestEnd := 0,
    calibrating := false, unknown := false }

/-- Stage of the `compute_all_performance_predictions` loop body at pi.c
lines 659-661: write `exp_end[ctx][impl] = exp_start + prev_exp_len` and
update `max_exp_end`. -/
def p1stage1 (now : ℚ) (c : Cand) (acc : PredState) : PredState :=
  let e1v := candExpEndPrev now c
  let a := { acc with eet := (candKey c, e1v) :: acc.eet }
  if flLt a.maxExpEnd e1v then { a with maxExpEnd := e1v } else a

/-- Stage of the loop body at pi.c lines 675-681: fill the length, penalty
and energy arrays from the oracle, and add the conversion time to the length
when positive. -/
def p1stage2 (c : Cand) (acc : PredState) : PredState :=
  let a := { acc with ltl := (candKey c, lenAt c.w c.impl) :: acc.ltl,
                      ldp := (candKey c, c.w.penalty) :: acc.ldp,
                      le := (candKey c, energyAt c.w c.impl) :: acc.le }
  if flLt (some 0) (convAt c.w c.impl) then
    { a with ltl := (candKey c, lenConvOf c) :: a.ltl }
  else a

/-- Stage of the loop body at pi.c lines 682-717: the greedy-calibration
candidate update. -/
def p1stage3 (c : Cand) (acc : PredState) : PredState :=
  if acc.ntasksBest = -1
      ∨ (¬acc.calibrating ∧ ntasksEndOf c.w < acc.ntasksBestEnd)
      ∨ (¬acc.calibrating ∧ lenConvOf c = none)
      ∨ (acc.calibrating ∧ lenConvOf c = none ∧ ntasksEndOf c.w < acc.ntasksBestEnd) then
    { acc with ntasksBestEnd := ntasksEndOf c.w, ntasksBest := (c.wid : Int),
               nimplBest := c.impl }
  else acc

/-- Stage at pi.c lines 719-723: set `calibrating` on a NaN length. -/
def p1stage4 (c : Cand) (acc : PredState) : PredState :=
  if lenConvOf c = none then { acc with calibrating := true } else acc

/-- Stage at pi.c lines 725-729: set `unknown` on a NaN or zero length. -/
def p1stage5 (c : Cand) (acc : PredState) : PredState :=
  if lenConvOf c = none ∨ lenConvOf c = some 0 then { acc with unknown := true }
  else acc

/-- Stage at pi.c lines 731-745: unless `unknown`, overwrite
`exp_end[ctx][impl]` with the full prediction, track `best_exp_end`, and
zero a NaN energy entry. -/
def p1stage6 (now : ℚ) (c : Cand) (acc : PredState) : PredState :=
  if acc.unknown then acc
  else
    let e2v := candExpEnd now c
    let a := { acc with eet := (candKey c, e2v) :: acc.eet }
    let b :=
      if flLt e2v a.bestExpEnd then { a with bestExpEnd := e2v, nimplBest := c.impl }
      else a
    if energyAt c.w c.impl = none then { b with le := (candKey c, some 0) :: b.le }
    else b

/-- Body of the `compute_all_performance_predictions` candidate loop (pi.c
lines 629-746), with `sorted_decision = 0` (the value `dmda_push_task` and
`dmda_simulate_push_task` pass), so `prev_exp_len = fifo->exp_len` and
`fifo_ntasks = fifo->ntasks`. -/
def p1step (now : ℚ) (acc : PredState) (c : Cand) : PredState :=
  p1stage6 now c (p1stage5 c (p1stage4 c (p1stage3 c (p1stage2 c (p1stage1 now c acc)))))

/-- Coefficients, clock and worker snapshot consumed by one DMDA decision. -/
structure DmdaCfg where
  now : ℚ
  alpha : ℚ
  beta : ℚ
  gam : ℚ
  idlePower : ℚ
  workers : List WorkerD
  deriving DecidableEq, Repr

/-- Result of `compute_all_performance_predictions` (pi.c lines 578-762):
final loop state plus the `forced_worker` / `forced_impl` outputs. -/
structure PredOut where
  P : PredState
  forcedWorker : Int
  forcedImpl : Int
  deriving DecidableEq, Repr

/-- Embedding of `compute_all_performance_predictions`. -/
def computeAllPerformancePredictions (cfg : DmdaCfg) : PredOut :=
  let P := (dmdaCands cfg.workers).foldl (p1step cfg.now) predInit
  { P := P,
    forcedWorker := if P.unknown then P.ntasksBest else -1,
    forcedImpl := if P.unknown then (P.nimplBest : Int) else -1 }

/-- Loop state of the fitness loop of `_dmda_push_task` (pi.c lines 809-812),
plus the `fitness` stack array. -/
structure FitState where
  fitT : Tbl
  bestFitness : Fl
  best : Int
  bestInCtx : Int
  selectedImpl : Nat
  deriving DecidableEq, Repr

/-- Initial state of the fitness loop (`best_fitness = -1`, pi.c line 809). -/
def fitInit : FitState :=
  { fitT := [], bestFitness := some (-1), best := -1, bestInCtx := -1,
    selectedImpl := 0 }

/-- The fitness expression of pi.c lines 830-840 for one candidate, reading
the filled prediction arrays. -/
def fitOf (cfg : DmdaCfg) (P : PredState) (c : Cand) : Fl :=
  let eE := (tget P.eet (candKey c)).getD none
  let dp := (tget P.ldp (candKey c)).getD none
  let en := (tget P.le (candKey c)).getD none
  let base := fadd (fadd (fmul (some cfg.alpha) (fsub eE P.bestExpEnd))
                         (fmul (some cfg.beta) dp))
                   (fmul (some cfg.gam) en)
  if flLt P.maxExpEnd eE then
    fadd base (fdiv (fmul (fmul (some cfg.gam) (some cfg.idlePower)) (fsub eE P.maxExpEnd))
                    (some 1000000))
  else base

/-- Body of the fitness loop of `_dmda_push_task` (pi.c lines 818-855). -/
def p2step (cfg : DmdaCfg) (P : PredState) (acc : FitState) (c : Cand) : FitState :=
  let f := fitOf cfg P c
  let acc1 := { acc with fitT := (candKey c, f) :: acc.fitT }
  if acc1.best = -1 ∨ flLt f acc1.bestFitness then
    { acc1 with bestFitness := f, best := (c.wid : Int), bestInCtx := (c.ctx : Int),
                selectedImpl := c.impl }
  else acc1

/-- The filled `fitness` array of one DMDA decision. -/
def dmdaFitTable (cfg : DmdaCfg) : Tbl :=
  ((dmdaCands cfg.workers).foldl
    (p2step cfg (computeAllPerformancePredictions cfg).P) fitInit).fitT

/-- Outcome of the selection part of `_dmda_push_task` (pi.c lines 764-883),
before the commit / simulate split. -/
structure SelOut where
  P : PredState
  forcedBest : Int
  best : Int
  bestInCtx : Int
  selectedImpl : Int
  modelBest : Fl
  transferModelBest : Fl
  deriving DecidableEq, Repr

/-- Embedding of the selection part of `_dmda_push_task`: predictions, then
either the fitness loop (when `forced_best == -1`) or the greedy overwrite of
pi.c lines 859-868.  The tasks of this program carry no bundle, so the
`task->bundle` branch of lines 869-875 is not taken. -/
def dmdaSelect (cfg : DmdaCfg) : SelOut :=
  let po := computeAllPerformancePredictions cfg
  if po.forcedWorker = -1 then
    let F := (dmdaCands cfg.workers).foldl (p2step cfg po.P) fitInit
    { P := po.P, forcedBest := -1, best := F.best, bestInCtx := F.bestInCtx,
      selectedImpl := (F.selectedImpl : Int),
      modelBest := (tget po.P.ltl (F.bestInCtx, (F.selectedImpl : Int))).getD none,
      transferModelBest := (tget po.P.ldp (F.bestInCtx, (F.selectedImpl : Int))).getD none }
  else
    { P := po.P, forcedBest := po.forcedWorker, best := po.forcedWorker,
      bestInCtx := -1, selectedImpl := po.forcedImpl,
      modelBest := some 0, transferModelBest := some 0 }

/-- Result of one `_dmda_push_task` call. -/
structure PushOut where
  workers : List WorkerD
  ret : Option Int
  value : Option Fl
  sel : SelOut
  deriving DecidableEq, Repr

/-- Embedding of `_dmda_push_task` (pi.c lines 764-897).  With `simulate`
set, the function returns `exp_end[best_in_ctx][selected_impl]` (line 895)
and touches no fifo; otherwise it commits through
`push_task_on_best_worker`.  When both `forced_best` and `best` are `-1` the
C assertion at line 857 aborts the process; that path returns the input
unchanged here. -/
def dmdaPushTask (cfg : DmdaCfg) (t : STask) (prio simulate : Bool)
    (sortedRet : Int) : PushOut :=
  let s := dmdaSelect cfg
  if simulate then
    { workers := cfg.workers, ret := none,
      value := tget s.P.eet (s.bestInCtx, s.selectedImpl), sel := s }
  else if 0 ≤ s.best then
    match cfg.workers.get? s.best.toNat with
    | some w =>
        let r := pushTaskOnBestWorker cfg.now t s.modelBest s.transferModelBest
                   prio w.masterChild sortedRet w.fifo
        { workers := cfg.workers.set s.best.toNat { w with fifo := r.2 },
          ret := some r.1, value := none, sel := s }
    | none => { workers := cfg.workers, ret := none, value := none, sel := s }
  else { workers := cfg.workers, ret := none, value := none, sel := s }

/-- Energy with the NaN default of pi.c lines 743-744. -/
def zeroIfNaN (a : Fl) : Fl := if a = none then some 0 else a

/-- The fitness value the spec predicts for a candidate, written over the
oracle values: alpha·(exp_end − best_exp_end) + beta·data_penalty +
gamma·energy with NaN energy treated as 0, plus the idle-power surcharge
exactly when `exp_end > max_exp_end`. -/
def claimFitness (cfg : DmdaCfg) (bestE maxE : Fl) (c : Cand) : Fl :=
  let eE := candExpEnd cfg.now c
  let base := fadd (fadd (fmul (some cfg.alpha) (fsub eE bestE))
                         (fmul (some cfg.beta) c.w.penalty))
                   (fmul (some cfg.gam) (zeroIfNaN (energyAt c.w c.impl)))
  if flLt maxE eE then
    fadd base (fdiv (fmul (fmul (some cfg.gam) (some cfg.idlePower)) (fsub eE maxE))
                    (some 1000000))
  else base

/-- Embedding of `_normalize_prio` (pi.c lines 155-160).  The C code computes
`((num_priorities-1)/(max-min)) * (priority - min)` with truncating integer
division; when `max = min` the division is by zero — undefined behavior,
modelled as `none`. -/
def normalizePriority (priority numPriorities mn mx : Int) : Option Int :=
  if mx - mn = 0 then none
  else some (((numPriorities - 1).tdiv (mx - mn)) * (priority - mn))

/-- The `num_priorities` initialization of `initialize_dmda_policy` (pi.c
lines 1108-1111): `max - min + 1` when the context set both bounds, `-1`
otherwise. -/
def numPrioritiesOf (minSet maxSet : Bool) (mn mx : Int) : Int :=
  if minSet ∧ maxSet then mx - mn + 1 else -1

/-- Worker data needed by `get_task_heter_ratio`: eligibility and the
implementation mask. -/
structure HWorker where
  canExec : Bool
  mask : List Bool
  deriving DecidableEq, Repr

/-- A task of the `dm_push_task` pending list, with its per-(worker, impl)
expected lengths (the oracle values `starpu_task_expected_length`). -/
structure HTask where
  id : Nat
  lens : List (List Fl)
  deriving DecidableEq, Repr

/-- Oracle length of task `t` on worker index `widx`, implementation `i`. -/
def hLenAt (t : HTask) (widx i : Nat) : Fl := (t.lens.getD widx []).getD i none

/-- Implementations enabled by an `HWorker` mask. -/
def hImplIdxs (w : HWorker) : List Nat :=
  (List.range maxImpls).filter (fun i => w.mask.getD i false)

/-- Candidate (worker index, impl) pairs of the `get_task_heter_ratio`
loops (pi.c lines 923-942 and 946-966). -/
def hCands (ws : List HWorker) : List (Nat × Nat) :=
  (withIdx 0 ws).bind
    (fun p => if p.2.canExec then (hImplIdxs p.2).map (fun i => (p.1, i)) else [])

/-- First pass of `get_task_heter_ratio` (pi.c lines 923-943): the maximum of
`1 + expected_length` over the candidates (NaN compares false and is
skipped). -/
def maxExecTimeOf (ws : List HWorker) (t : HTask) : ℚ :=
  (hCands ws).foldl
    (fun m c =>
      match fadd (some 1) (hLenAt t c.1 c.2) with
      | some v => if m < v then v else m
      | none => m) 0

/-- Embedding of `get_task_heter_ratio` (pi.c lines 912-968): second pass,
the maximum of `max_execution_time / (1 + expected_length)`. -/
def taskHeterRatioOf (ws : List HWorker) (t : HTask) : ℚ :=
  (hCands ws).foldl
    (fun m c =>
      match fdiv (some (maxExecTimeOf ws t)) (fadd (some 1) (hLenAt t c.1 c.2)) with
      | some v => if m < v then v else m
      | none => m) 0

/-- State of the insertion `while` loop of `dm_push_task` (pi.c lines
988-996): the `current` pointer and the prev/next links of the list nodes,
keyed by task id (most recent write first). -/
structure DmLoopSt where
  cur : Option Nat
  prevL : List (Nat × Option Nat)
  nextL : List (Nat × Option Nat)
  deriving DecidableEq, Repr

/-- Read a link field of a node. -/
def getLink (l : List (Nat × Option Nat)) (k : Nat) : Option Nat :=
  ((l.find? (fun e => e.1 = k)).map (fun e => e.2)).getD none

/-- One iteration of the `dm_push_task` insertion loop.  `none` means the
loop exited (`current == NULL`); otherwise the next loop state.  When the
guard `max_heter_ratio > get_task_heter_ratio(ctx, current)` holds the body
performs the four link writes of pi.c lines 991-994 — and leaves `current`
unchanged; when it fails, the body does nothing at all.  (If `current->prev`
were NULL the C write at line 991 would dereference NULL; the write is
skipped here, which only matters on that crashing path.) -/
def dmLoopStep (cond : Nat → Bool) (newId : Nat) (st : DmLoopSt) : Option DmLoopSt :=
  match st.cur with
  | none => none
  | some c =>
      if cond c then
        let p := getLink st.prevL c
        let nx1 := match p with
          | some pn => (pn, some newId) :: st.nextL
          | none => st.nextL
        some { cur := some c,
               prevL := (c, some newId) :: (newId, p) :: st.prevL,
               nextL := (newId, some c) :: nx1 }
      else some st

/-- Run `n` iterations of the insertion loop; `none` once the loop has
exited. -/
def dmLoopRun (cond : Nat → Bool) (newId : Nat) : Nat → DmLoopSt → Option DmLoopSt
  | 0, st => some st
  | n + 1, st =>
      match dmLoopStep cond newId st with
      | none => none
      | some st' => dmLoopRun cond newId n st'

/-- Next-links of a task list in order. -/
def nextLinksOf : List HTask → List (Nat × Option Nat)
  | [] => []
  | [x] => [(x.id, none)]
  | x :: y :: rest => (x.id, some y.id) :: nextLinksOf (y :: rest)

/-- Prev-links of a task list, given the id of the predecessor of its first
element. -/
def prevLinksFrom : Option Nat → List HTask → List (Nat × Option Nat)
  | _, [] => []
  | p, x :: rest => (x.id, p) :: prevLinksFrom (some x.id) rest

/-- Prev-links of a task list in order. -/
def prevLinksOf (l : List HTask) : List (Nat × Option Nat) := prevLinksFrom none l

/-- Entry of the insertion part of `dm_push_task` (pi.c lines 978-998):
`none` when the list is empty (push_back) or the new task's heterogeneity
ratio beats the head's (push_front); otherwise the loop is entered with
`current = head->next` and the list's links. -/
def dmPushTaskStart (ws : List HWorker) (mainList : List HTask) (t : HTask) :
    Option DmLoopSt :=
  match mainList with
  | [] => none
  | h :: rest =>
      if taskHeterRatioOf ws t > taskHeterRatioOf ws h then none
      else some { cur := rest.head?.map (fun u => u.id),
                  prevL := prevLinksOf (h :: rest),
                  nextL := nextLinksOf (h :: rest) }

/-- Ratio of the pending-list task with a given id (the loop guard calls
`get_task_heter_ratio` on `current` each iteration). -/
def ratioOfIdIn (ws : List HWorker) (ts : List HTask) (i : Nat) : ℚ :=
  match ts.find? (fun u => u.id = i) with
  | some u => taskHeterRatioOf ws u
  | none => 0

/-- An empty fifo, used by the concrete scenarios below. -/
def fifo0 : FifoState :=
  { taskq := [], ntasks := 0, nprocessed := 0,
    expStart := some 0, expLen := some 0, expEnd := some 0 }

/-- A dummy task for push calls. -/
def tsk0 : STask := { id := 9, priority := 0, buffers := [] }

/-- A single worker with a calibrated length prediction (5 us). -/
def wKnown : WorkerD :=
  { canExec := true, masterChild := false, mask := [true], len := [some 5],
    conv := [some 0], energy := [some 0], penalty := some 0, speedup := 1,
    fifo := fifo0 }

/-- A single worker whose length prediction is NaN (model not calibrated). -/
def wNaN : WorkerD :=
  { canExec := true, masterChild := false, mask := [true], len := [none],
    conv := [some 0], energy := [some 0], penalty := some 0, speedup := 1,
    fifo := fifo0 }

/-- One-worker configuration with a calibrated model. -/
def cfgKnown : DmdaCfg :=
  { now := 0, alpha := 1, beta := 1, gam := 1000, idlePower := 0,
    workers := [wKnown] }

/-- One-worker configuration with an uncalibrated model. -/
def cfgNaN : DmdaCfg :=
  { now := 0, alpha := 1, beta := 1, gam := 1000, idlePower := 0,
    workers := [wNaN] }

/-- Scenario S5 of the spec: head with two non-ready buffers. -/
def taskA : STask := { id := 0, priority := 5, buffers := [false, false] }

/-- Scenario S5: same priority as the head, zero non-ready buffers. -/
def taskB : STask := { id := 1, priority := 5, buffers := [true] }

/-- Scenario S5: lower priority than the head. -/
def taskC : STask := { id := 2, priority := 3, buffers := [true] }

/-- Fifo holding the S5 queue [A, B, C]. -/
def fifoABC : FifoState := { fifo0 with taskq := [taskA, taskB, taskC], ntasks := 3 }

/-- One eligible worker with one implementation, for the `dm_push_task` loop
scenario. -/
def hw1 : List HWorker := [{ canExec := true, mask := [true] }]

/-- Pending-list head: expected length 1, heterogeneity ratio 1. -/
def htA : HTask := { id := 0, lens := [[some 1]] }

/-- Second pending task: expected length 1, heterogeneity ratio 1. -/
def htB : HTask := { id := 1, lens := [[some 1]] }

/-- The newly pushed task: expected length 3, heterogeneity ratio 1. -/
def htN : HTask := { id := 2, lens := [[some 3]] }

/-- The pending list [htA, htB]. -/
def c7tasks : List HTask := [htA, htB]

/-- The loop guard of the concrete `dm_push_task` run: the new task's ratio
against the ratio of the task `current` points at. -/
def c7cond : Nat → Bool := fun c =>
  decide (taskHeterRatioOf hw1 htN > ratioOfIdIn hw1 c7tasks c)

/-- The loop state `dm_push_task` enters with list [htA, htB] and task htN:
`current` points at htB. -/
def c7st0 : DmLoopSt :=
  { cur := some 1, prevL := [(0, none), (1, some 0)],
    nextL := [(0, some 1), (1, none)] }

theorem fadd_assoc (a b c : Fl) : fadd (fadd a b) c = fadd a (fadd b c) := by
  cases a <;> cases b <;> cases c <;> simp [fadd, add_assoc]

/-- C1: after any mutating scheduler operation returns — the commit in
`push_task_on_best_worker`, `dmda_pre_exec_hook`, `dmda_post_exec_hook`,
`dmda_push_task_notify`, and every pop — the worker FIFO satisfies
`exp_end = exp_start + exp_len` (exactly, in the rational model of doubles;
the C code satisfies it up to floating-point rounding). -/
theorem horizonInvariantAfterOp (op : FifoOp) (f : FifoState) :
    (applyFifoOp op f).expEnd =
      fadd (applyFifoOp op f).expStart (applyFifoOp op f).expLen := by
  cases op with
  | pushCommit now t p pt prio r =>
      simp only [applyFifoOp, pushTaskOnBestWorker, Bool.false_eq_true, if_false]
      split_ifs <;> simp [fadd_assoc]
  | preExec now m tm =>
      simp only [applyFifoOp, dmdaPreExecHook]
  | postExec now => rfl
  | notify now p pt =>
      simp only [applyFifoOp, dmdaPushTaskNotify]
      split_ifs <;> simp [fadd_assoc]
  | popReady now =>
      simp only [applyFifoOp, dmdaPopReadyTask, starpuFifoPopFirstReadyTask,
                 dmdaPopUpdate]
      split_ifs <;> (try rfl) <;> (cases f.taskq <;> rfl)
  | popLocal now =>
      simp only [applyFifoOp, dmdaPopTask, dmdaPopUpdate]
      cases f.taskq <;> rfl
  | popEvery now => rfl

theorem ltO_of_lt_of_ltO {n m : Nat} {bc : Option Nat} (h1 : n < m)
    (h2 : ltO m bc = true) : ltO n bc = true := by
  cases bc <;> simp [ltO] at * <;> omega

theorem ltO_false_elim {n : Nat} {bc : Option Nat} (h : ¬ ltO n bc = true) :
    ∃ m, bc = some m ∧ m ≤ n := by
  cases bc with
  | none => simp [ltO] at h
  | some m => refine ⟨m, rfl, ?_⟩; simp [ltO] at h; omega

theorem selectReady_spec (p : Int) (ts : List STask) :
    ∀ (best : STask) (bc : Option Nat),
      selectReady p ts best bc = best ∨
      (∃ pre post, ts = pre ++ selectReady p ts best bc :: post
        ∧ p ≤ (selectReady p ts best bc).priority
        ∧ ltO (countNonReadyBuffers (selectReady p ts best bc)) bc = true
        ∧ ∀ u ∈ pre, p ≤ u.priority →
            countNonReadyBuffers (selectReady p ts best bc) < countNonReadyBuffers u) := by
  induction ts with
  | nil => intro best bc; left; rfl
  | cons c cs ih =>
      intro best bc
      by_cases hp : p ≤ c.priority
      · by_cases hlt : ltO (countNonReadyBuffers c) bc = true
        · by_cases h0 : countNonReadyBuffers c = 0
          · have hr : selectReady p (c :: cs) best bc = c := by
              simp only [selectReady]
              rw [if_pos hp, if_pos hlt, if_pos h0]
            right
            exact ⟨[], cs, by simp [hr], by rw [hr]; exact hp, by rw [hr]; exact hlt,
                   by simp⟩
          · have hr : selectReady p (c :: cs) best bc
                = selectReady p cs c (some (countNonReadyBuffers c)) := by
              simp only [selectReady]
              rw [if_pos hp, if_pos hlt, if_neg h0]
            rcases ih c (some (countNonReadyBuffers c)) with h | ⟨pre, post, heq, hple, hlt2, hall⟩
            · right
              refine ⟨[], cs, by simp [hr, h], ?_, ?_, by simp⟩
              · rw [hr, h]; exact hp
              · rw [hr, h]; exact hlt
            · right
              have hcc : countNonReadyBuffers (selectReady p cs c (some (countNonReadyBuffers c)))
                  < countNonReadyBuffers c := by
                simpa [ltO] using hlt2
              refine ⟨c :: pre, post, ?_, ?_, ?_, ?_⟩
              · rw [hr]; simpa using congrArg (fun l => c :: l) heq
              · rw [hr]; exact hple
              · rw [hr]; exact ltO_of_lt_of_ltO hcc hlt
              · intro u hu hup
                rw [hr]
                rcases List.mem_cons.mp hu with rfl | hu2
                · exact hcc
                · exact hall u hu2 hup
        · have hr : selectReady p (c :: cs) best bc = selectReady p cs best bc := by
            simp only [selectReady]
            rw [if_pos hp, if_neg hlt]
          rcases ih best bc with h | ⟨pre, post, heq, hple, hlt2, hall⟩
          · left; rw [hr]; exact h
          · right
            obtain ⟨m, hm, hmn⟩ := ltO_false_elim hlt
            subst hm
            have hcc : countNonReadyBuffers (selectReady p cs best (some m))
                < countNonReadyBuffers c := by
              simp [ltO] at hlt2
              omega
            refine ⟨c :: pre, post, ?_, ?_, ?_, ?_⟩
            · rw [hr]; simpa using congrArg (fun l => c :: l) heq
            · rw [hr]; exact hple
            · rw [hr]; exact hlt2
            · intro u hu hup
              rw [hr]
              rcases List.mem_cons.mp hu with rfl | hu2
              · exact hcc
              · exact hall u hu2 hup
      · have hr : selectReady p (c :: cs) best bc = selectReady p cs best bc := by
          simp only [selectReady]
          rw [if_neg hp]
        rcases ih best bc with h | ⟨pre, post, heq, hple, hlt2, hall⟩
        · left; rw [hr]; exact h
        · right
          refine ⟨c :: pre, post, ?_, ?_, ?_, ?_⟩
          · rw [hr]; simpa using congrArg (fun l => c :: l) heq
          · rw [hr]; exact hple
          · rw [hr]; exact hlt2
          · intro u hu hup
            rw [hr]
            rcases List.mem_cons.mp hu with rfl | hu2
            · exact absurd hup hp
            · exact hall u hu2 hup

/-- C2: when `_starpu_fifo_pop_first_ready_task` returns a task `t` from a
non-empty FIFO, either `t` is the head, or `t` has priority at least the
head's and every earlier task of same-or-higher priority has strictly more
non-ready input buffers than `t` (which also gives the earliest-position tie
break and that no earlier considered task had zero non-ready buffers). -/
theorem popFirstReadySpec (fifo : FifoState) (h : STask) (rest : List STask)
    (hq : fifo.taskq = h :: rest) (t : STask)
    (ht : (starpuFifoPopFirstReadyTask fifo).1 = some t) :
    t = h ∨ (h.priority ≤ t.priority
      ∧ ∃ pre post, h :: rest = pre ++ t :: post
      ∧ ∀ u ∈ pre, h.priority ≤ u.priority →
          countNonReadyBuffers t < countNonReadyBuffers u) := by
  unfold starpuFifoPopFirstReadyTask at ht
  by_cases hn : fifo.ntasks = 0
  · simp [hn] at ht
  · rw [hq] at ht
    simp only [hn, if_false] at ht
    simp at ht
    rcases selectReady_spec h.priority (h :: rest) h none with h1 | ⟨pre, post, heq, hple, _, hall⟩
    · left; rw [← ht, h1]
    · right; rw [← ht]; exact ⟨hple, pre, post, heq, hall⟩

/-- Witness for C2 at the spec's scenario S5: queue [A(prio 5, 2 non-ready),
B(prio 5, 0 non-ready), C(prio 3, 0 non-ready)] pops B. -/
theorem popFirstReadySpecWitness :
    (starpuFifoPopFirstReadyTask fifoABC).1 = some taskB
      ∧ (taskB = taskA ∨ (taskA.priority ≤ taskB.priority
          ∧ ∃ pre post, taskA :: [taskB, taskC] = pre ++ taskB :: post
          ∧ ∀ u ∈ pre, taskA.priority ≤ u.priority →
              countNonReadyBuffers taskB < countNonReadyBuffers u)) :=
  ⟨by decide, popFirstReadySpec fifoABC taskA [taskB, taskC] rfl taskB (by decide)⟩

/-- C5 counterexample: `dmda_pre_exec_hook` on an empty horizon with models
5 and 3 drives `exp_len` to −8 — the claimed clamping to zero does not
exist, and `exp_len ≥ 0` fails after the hook returns. -/
theorem preExecNoClampCounterexample :
    (dmdaPreExecHook 0 (some 5) (some 3) fifo0).expLen = some (-8)
      ∧ ((-8 : ℚ) < 0) := by
  constructor
  · norm_num [dmdaPreExecHook, fifo0, fsub, flMax, flLt, Option.some_ne_none]
  · norm_num

/-- C5 (amended): the hooks do not fail, but they perform no clamping:
`pre_exec` subtracts the non-NaN transfer and compute models from `exp_len`
unconditionally (so `exp_len` can become negative), and `post_exec` does not
modify `exp_len` at all. -/
theorem hooksSubtractWithoutClamping (now : ℚ) (model transferModel : Fl)
    (f : FifoState) (hm : model ≠ none) (ht : transferModel ≠ none) :
    (dmdaPreExecHook now model transferModel f).expLen
        = fsub (fsub f.expLen transferModel) model
      ∧ (dmdaPostExecHook now f).expLen = f.expLen := by
  constructor
  · simp [dmdaPreExecHook, hm, ht]
  · rfl

/-- Witness for the amended C5. -/
theorem hooksSubtractWithoutClampingWitness :
    (dmdaPreExecHook 0 (some 5) (some 3) fifo0).expLen
        = fsub (fsub fifo0.expLen (some 3)) (some 5)
      ∧ (dmdaPostExecHook 0 fifo0).expLen = fifo0.expLen :=
  hooksSubtractWithoutClamping 0 (some 5) (some 3) fifo0 (by decide) (by decide)

/-- C6 counterexample: when the chosen worker is a master-for-child-context,
`push_task_on_best_worker` returns 0 (pi.c line 317), not a non-zero value
as the claim states. -/
theorem pushDelegationReturnsZero :
    (pushTaskOnBestWorker 0 tsk0 (some 5) (some 0) false true 0 fifo0).1 = 0 := by
  decide

/-- C6 (amended): `push` returns 0 on delegation to a child context exactly
as on a tail-append commit — delegation is not distinguishable from commit by
the return value; on the priority-sorted path the return value is whatever
the external `_starpu_fifo_push_sorted_task` returns. -/
theorem pushReturnValueSpec (now : ℚ) (t : STask) (p pt : Fl) (sr : Int)
    (f : FifoState) :
    (∀ prio, pushTaskOnBestWorker now t p pt prio true sr f = (0, f))
      ∧ (pushTaskOnBestWorker now t p pt false false sr f).1 = 0
      ∧ (pushTaskOnBestWorker now t p pt true false sr f).1 = sr := by
  refine ⟨fun prio => rfl, ?_, ?_⟩ <;> simp [pushTaskOnBestWorker]

/-- C10: with a context whose minimum and maximum priorities are both set to
the same value, `initialize_dmda_policy` computes `num_priorities = 1` and
`_normalize_prio` divides by `max − min = 0` — undefined behavior, against
the claim that the divisor is nonzero whenever buckets are enabled. -/
theorem normalizePriorityDividesByZeroWhenMinEqMax :
    numPrioritiesOf true true 5 5 = 1
      ∧ numPrioritiesOf true true 5 5 ≠ -1
      ∧ normalizePriority 7 (numPrioritiesOf true true 5 5) 5 5 = none := by
  decide

theorem computeAll_P (cfg : DmdaCfg) :
    (computeAllPerformancePredictions cfg).P
      = (dmdaCands cfg.workers).foldl (p1step cfg.now) predInit := rfl

theorem computeAll_forced (cfg : DmdaCfg) :
    (computeAllPerformancePredictions cfg).forcedWorker
      = (if (computeAllPerformancePredictions cfg).P.unknown
          then (computeAllPerformancePredictions cfg).P.ntasksBest else -1) := rfl

theorem p1stage1_unknown (now : ℚ) (c : Cand) (acc : PredState) :
    (p1stage1 now c acc).unknown = acc.unknown := by
  simp only [p1stage1]; split_ifs <;> rfl

theorem p1stage2_unknown (c : Cand) (acc : PredState) :
    (p1stage2 c acc).unknown = acc.unknown := by
  simp only [p1stage2]; split_ifs <;> rfl

theorem p1stage3_unknown (c : Cand) (acc : PredState) :
    (p1stage3 c acc).unknown = acc.unknown := by
  simp only [p1stage3]; split_ifs <;> rfl

theorem p1stage4_unknown (c : Cand) (acc : PredState) :
    (p1stage4 c acc).unknown = acc.unknown := by
  simp only [p1stage4]; split_ifs <;> rfl

theorem p1stage5_unknown_iff (c : Cand) (acc : PredState) :
    (p1stage5 c acc).unknown = true ↔ (acc.unknown = true ∨ badLen c) := by
  simp only [p1stage5, badLen]; split_ifs <;> simp_all

theorem p1stage6_unknown (now : ℚ) (c : Cand) (acc : PredState) :
    (p1stage6 now c acc).unknown = acc.unknown := by
  simp only [p1stage6]; split_ifs <;> rfl

theorem p1stage1_ntasksBest (now : ℚ) (c : Cand) (acc : PredState) :
    (p1stage1 now c acc).ntasksBest = acc.ntasksBest := by
  simp only [p1stage1]; split_ifs <;> rfl

theorem p1stage2_ntasksBest (c : Cand) (acc : PredState) :
    (p1stage2 c acc).ntasksBest = acc.ntasksBest := by
  simp only [p1stage2]; split_ifs <;> rfl

theorem p1stage4_ntasksBest (c : Cand) (acc : PredState) :
    (p1stage4 c acc).ntasksBest = acc.ntasksBest := by
  simp only [p1stage4]; split_ifs <;> rfl

theorem p1stage5_ntasksBest (c : Cand) (acc : PredState) :
    (p1stage5 c acc).ntasksBest = acc.ntasksBest := by
  simp only [p1stage5]; split_ifs <;> rfl

theorem p1stage6_ntasksBest (now : ℚ) (c : Cand) (acc : PredState) :
    (p1stage6 now c acc).ntasksBest = acc.ntasksBest := by
  simp only [p1stage6]; split_ifs <;> rfl

theorem p1stage3_ntasksBest_cases (c : Cand) (acc : PredState) :
    (p1stage3 c acc).ntasksBest = acc.ntasksBest
      ∨ (p1stage3 c acc).ntasksBest = (c.wid : Int) := by
  simp only [p1stage3]; split_ifs <;> simp

theorem p1stage3_ntasksBest_set (c : Cand) (acc : PredState)
    (h : acc.ntasksBest = -1) :
    (p1stage3 c acc).ntasksBest = (c.wid : Int) := by
  simp only [p1stage3]
  rw [if_pos (Or.inl h)]

theorem p1step_unknown_iff (now : ℚ) (acc : PredState) (c : Cand) :
    (p1step now acc c).unknown = true ↔ (acc.unknown = true ∨ badLen c) := by
  unfold p1step
  rw [p1stage6_unknown]
  rw [p1stage5_unknown_iff]
  rw [p1stage4_unknown, p1stage3_unknown, p1stage2_unknown, p1stage1_unknown]

theorem p1step_ntasksBest_cases (now : ℚ) (acc : PredState) (c : Cand) :
    (p1step now acc c).ntasksBest = acc.ntasksBest
      ∨ (p1step now acc c).ntasksBest = (c.wid : Int) := by
  unfold p1step
  rw [p1stage6_ntasksBest, p1stage5_ntasksBest, p1stage4_ntasksBest]
  rcases p1stage3_ntasksBest_cases c (p1stage2 c (p1stage1 now c acc)) with he | he <;>
    rw [he]
  · rw [p1stage2_ntasksBest, p1stage1_ntasksBest]; left; rfl
  · right; rfl

theorem p1step_ntasksBest_set (now : ℚ) (acc : PredState) (c : Cand)
    (h : acc.ntasksBest = -1) :
    (p1step now acc c).ntasksBest = (c.wid : Int) := by
  unfold p1step
  rw [p1stage6_ntasksBest, p1stage5_ntasksBest, p1stage4_ntasksBest]
  rw [p1stage3_ntasksBest_set]
  rw [p1stage2_ntasksBest, p1stage1_ntasksBest, h]

theorem p1fold_unknown_false (now : ℚ) (cs : List Cand) :
    ∀ (acc : PredState), (cs.foldl (p1step now) acc).unknown = false →
      acc.unknown = false ∧ ∀ c ∈ cs, ¬ badLen c := by
  induction cs with
  | nil => intro acc h; exact ⟨h, by simp⟩
  | cons c cs ih =>
      intro acc h
      rw [List.foldl_cons] at h
      obtain ⟨h1, h2⟩ := ih (p1step now acc c) h
      refine ⟨?_, ?_⟩
      · by_contra hau
        have : (p1step now acc c).unknown = true :=
          (p1step_unknown_iff now acc c).mpr (Or.inl (by simpa using hau))
        rw [h1] at this
        exact Bool.false_ne_true this
      · intro d hd
        rcases List.mem_cons.mp hd with hdc | hdm
        · rw [hdc]
          intro hb
          have h4 : (p1step now acc c).unknown = true :=
            (p1step_unknown_iff now acc c).mpr (Or.inr hb)
          rw [h1] at h4
          exact Bool.false_ne_true h4
        · exact h2 d hdm

theorem p1fold_unknown_ntasksBest (now : ℚ) (cs : List Cand) :
    ∀ (acc : PredState),
      (acc.ntasksBest = -1 ∨ 0 ≤ acc.ntasksBest) →
      (acc.unknown = true → 0 ≤ acc.ntasksBest) →
      ((cs.foldl (p1step now) acc).ntasksBest = -1
          ∨ 0 ≤ (cs.foldl (p1step now) acc).ntasksBest)
        ∧ ((cs.foldl (p1step now) acc).unknown = true
          → 0 ≤ (cs.foldl (p1step now) acc).ntasksBest) := by
  induction cs with
  | nil => intro acc hK hJ; exact ⟨hK, hJ⟩
  | cons c cs ih =>
      intro acc hK hJ
      rw [List.foldl_cons]
      apply ih
      · rcases p1step_ntasksBest_cases now acc c with he | he <;> rw [he]
        · exact hK
        · right; exact Int.ofNat_nonneg _
      · intro hu
        rcases (p1step_unknown_iff now acc c).mp hu with ha | hb
        · rcases p1step_ntasksBest_cases now acc c with he | he <;> rw [he]
          · exact hJ ha
          · exact Int.ofNat_nonneg _
        · rcases hK with hk | hk
          · rw [p1step_ntasksBest_set now acc c hk]; exact Int.ofNat_nonneg _
          · rcases p1step_ntasksBest_cases now acc c with he | he <;> rw [he]
            · exact hk
            · exact Int.ofNat_nonneg _

theorem forcedWorker_eq_neg1_iff (cfg : DmdaCfg) :
    (computeAllPerformancePredictions cfg).forcedWorker = -1 ↔
      (computeAllPerformancePredictions cfg).P.unknown = false := by
  rw [computeAll_forced]
  by_cases hu : (computeAllPerformancePredictions cfg).P.unknown
  · have hn : 0 ≤ (computeAllPerformancePredictions cfg).P.ntasksBest := by
      rw [computeAll_P] at hu ⊢
      exact (p1fold_unknown_ntasksBest cfg.now (dmdaCands cfg.workers) predInit
        (Or.inl rfl) (by intro h; simp [predInit] at h)).2 hu
    simp only [hu, if_true]
    constructor
    · intro h
      rw [h] at hn
      omega
    · intro h
      simp at h
  · simp [hu]

theorem dmDecide_unknown (now : ℚ) (ws : List WorkerD) :
    (dmDecide now ws).unknown = (dmDecideRaw now ws).unknown := by
  simp only [dmDecide]
  split_ifs <;> rfl

theorem dmDecide_wKnown_eval : dmDecide 0 [wKnown]
    = { best := 0, bestExpEnd := some 5, modelBest := some 5,
        transferModelBest := some 0, ntasksBest := 0, ntasksBestEnd := 0,
        calibrating := false, unknown := false, bestImpl := 0 } := by
  have hc : dmCands [wKnown] = [(0, wKnown, 0)] := rfl
  simp only [dmDecide, dmDecideRaw, hc, List.foldl]
  norm_num [dmStep, dmInit, expStartOf, lenAt, ntasksEndOf, flMax, flLt, fadd,
    wKnown, fifo0, Option.some_ne_none, Option.some.injEq]

/-- C3 counterexample: with a single worker whose model is calibrated
(length 5, nothing NaN or zero), no candidate raises the `unknown` flag, yet
the committed worker (the exp-end argmin) coincides with the greedy
calibration candidate — so "the committed worker is the greedy candidate iff
some candidate had NaN or zero length" fails in the only-if direction. -/
theorem dmGreedyIffCounterexample :
    ¬ (((dmDecide 0 [wKnown]).best = (dmDecide 0 [wKnown]).ntasksBest) ↔
        (dmDecide 0 [wKnown]).unknown = true) := by
  rw [dmDecide_wKnown_eval]
  simp

/-- C3 (amended): when some eligible candidate has NaN or zero predicted
length (the `unknown` flag), both decision paths commit the greedy
calibration candidate with `model_best = transfer_model_best = 0`: in
`_dm_push_task` the committed worker is `ntasks_best`, and in
`_dmda_push_task` the forced worker equals `ntasks_best` and is committed
with zero models.  The converse of the claim's "iff" does not hold: without
`unknown` the exp-end argmin is committed, which can coincide with the greedy
candidate (see the counterexample). -/
theorem unknownForcesGreedyZeroModels (now : ℚ) (ws : List WorkerD)
    (cfg : DmdaCfg)
    (h1 : (dmDecide now ws).unknown = true)
    (h2 : (computeAllPerformancePredictions cfg).P.unknown = true) :
    ((dmDecide now ws).best = (dmDecide now ws).ntasksBest
      ∧ (dmDecide now ws).modelBest = some 0
      ∧ (dmDecide now ws).transferModelBest = some 0)
    ∧ ((dmdaSelect cfg).forcedBest
          = (computeAllPerformancePredictions cfg).P.ntasksBest
      ∧ (dmdaSelect cfg).best
          = (computeAllPerformancePredictions cfg).P.ntasksBest
      ∧ (dmdaSelect cfg).modelBest = some 0
      ∧ (dmdaSelect cfg).transferModelBest = some 0) := by
  constructor
  · have hraw : (dmDecideRaw now ws).unknown = true := by
      rw [← dmDecide_unknown]; exact h1
    simp only [dmDecide, hraw, eq_self_iff_true, if_true]
    exact ⟨trivial, trivial, trivial⟩
  · have hf : ¬ (computeAllPerformancePredictions cfg).forcedWorker = -1 := by
      rw [forcedWorker_eq_neg1_iff, h2]
      simp
    have hfv : (computeAllPerformancePredictions cfg).forcedWorker
        = (computeAllPerformancePredictions cfg).P.ntasksBest := by
      rw [computeAll_forced, h2]
      simp
    simp only [dmdaSelect]
    rw [if_neg hf]
    exact ⟨hfv, hfv, rfl, rfl⟩

/-- Witness for the amended C3, at a single worker with NaN length. -/
theorem unknownForcesGreedyZeroModelsWitness :
    ((dmDecide 0 [wNaN]).best = (dmDecide 0 [wNaN]).ntasksBest
      ∧ (dmDecide 0 [wNaN]).modelBest = some 0
      ∧ (dmDecide 0 [wNaN]).transferModelBest = some 0)
    ∧ ((dmdaSelect cfgNaN).forcedBest
          = (computeAllPerformancePredictions cfgNaN).P.ntasksBest
      ∧ (dmdaSelect cfgNaN).best
          = (computeAllPerformancePredictions cfgNaN).P.ntasksBest
      ∧ (dmdaSelect cfgNaN).modelBest = some 0
      ∧ (dmdaSelect cfgNaN).transferModelBest = some 0) :=
  unknownForcesGreedyZeroModels 0 [wNaN] cfgNaN
    (by
      rw [dmDecide_unknown]
      have hc : dmCands [wNaN] = [(0, wNaN, 0)] := rfl
      simp only [dmDecideRaw, hc, List.foldl]
      norm_num [dmStep, dmInit, expStartOf, lenAt, ntasksEndOf, flMax, flLt,
        fadd, wNaN, fifo0, Option.some_ne_none, Option.some.injEq])
    (by
      rw [computeAll_P]
      have hc : dmdaCands cfgNaN.workers = [⟨0, 0, wNaN, 0⟩] := rfl
      rw [hc]
      show (p1step cfgNaN.now predInit ⟨0, 0, wNaN, 0⟩).unknown = true
      exact (p1step_unknown_iff cfgNaN.now predInit ⟨0, 0, wNaN, 0⟩).mpr
        (Or.inr (Or.inl (by norm_num [lenConvOf, convAt, lenAt, wNaN, flLt]))))

theorem dmLoopStep_cur (cond : Nat → Bool) (newId : Nat) (st st' : DmLoopSt)
    (h : dmLoopStep cond newId st = some st') : st'.cur = st.cur := by
  unfold dmLoopStep at h
  split at h
  · exact absurd h (by simp)
  · next c hc =>
      split at h <;> simp only [Option.some.injEq] at h <;> rw [← h] <;> simp [hc]

theorem dmLoopRun_ne_none (cond : Nat → Bool) (newId : Nat) (c : Nat) :
    ∀ (n : Nat) (st : DmLoopSt), st.cur = some c →
      dmLoopRun cond newId n st ≠ none := by
  intro n
  induction n with
  | zero => intro st h; simp [dmLoopRun]
  | succ k ih =>
      intro st h
      unfold dmLoopRun
      cases hs : dmLoopStep cond newId st with
      | none =>
          unfold dmLoopStep at hs
          rw [h] at hs
          by_cases hb : cond c <;> simp [hb] at hs
      | some st' =>
          simp only []
          exact ih st' (by rw [dmLoopStep_cur cond newId st st' hs, h])

/-- C7: the insertion loop of `dm_push_task` never advances `current`.  On
the concrete input — pending list [htA, htB] whose head's heterogeneity
ratio (1) is ≥ the new task htN's ratio (1) — the loop is entered with
`current` pointing at htB, and no number of iterations makes it exit. -/
theorem dmPushInsertLoopNeverTerminates :
    dmPushTaskStart hw1 c7tasks htN = some c7st0
      ∧ ∀ n, dmLoopRun c7cond htN.id n c7st0 ≠ none := by
  constructor
  · have hstep : dmPushTaskStart hw1 c7tasks htN
        = if taskHeterRatioOf hw1 htN > taskHeterRatioOf hw1 htA then none
          else some c7st0 := rfl
    have hcn : hCands hw1 = [(0, 0)] := rfl
    have hrN : taskHeterRatioOf hw1 htN = 1 := by
      simp only [taskHeterRatioOf, maxExecTimeOf, hcn, List.foldl]
      norm_num [hLenAt, htN, fadd, fdiv]
    have hrA : taskHeterRatioOf hw1 htA = 1 := by
      simp only [taskHeterRatioOf, maxExecTimeOf, hcn, List.foldl]
      norm_num [hLenAt, htA, fadd, fdiv]
    rw [hstep, hrN, hrA, if_neg (by norm_num)]
  · intro n
    exact dmLoopRun_ne_none c7cond htN.id 1 n c7st0 rfl

theorem dmdaSelect_cfgNaN_eval :
    dmdaSelect cfgNaN
      = { P := { ltl := [((0, 0), none)], eet := [((0, 0), some 0)],
                 ldp := [((0, 0), some 0)], le := [((0, 0), some 0)],
                 maxExpEnd := some dblMin, bestExpEnd := some dblMax,
                 ntasksBest := 0, nimplBest := 0, ntasksBestEnd := 0,
                 calibrating := true, unknown := true },
          forcedBest := 0, best := 0, bestInCtx := -1, selectedImpl := 0,
          modelBest := some 0, transferModelBest := some 0 } := by
  have hc : dmdaCands cfgNaN.workers = [⟨0, 0, wNaN, 0⟩] := rfl
  simp only [dmdaSelect, computeAllPerformancePredictions, hc, List.foldl]
  norm_num [p1step, p1stage1, p1stage2, p1stage3, p1stage4, p1stage5, p1stage6,
    candExpEndPrev, candExpEnd, candKey, expStartOf, lenAt, convAt, energyAt,
    lenConvOf, ntasksEndOf, flMax, flLt, fadd, cfgNaN, wNaN, fifo0, predInit,
    Option.some_ne_none, Option.some.injEq, dblMin, dblMax]

/-- C9: the final array read of `_dmda_push_task` with `simulate` set is not
always in bounds: when the greedy unknown-model fallback selects the worker
(here a single worker with NaN predicted length), `best_in_ctx` is still −1,
so the read `exp_end[best_in_ctx][selected_impl]` lies out of bounds and
returns no written entry. -/
theorem simulateReadOutOfBounds :
    (dmdaSelect cfgNaN).forcedBest ≠ -1
      ∧ (dmdaSelect cfgNaN).bestInCtx = -1
      ∧ ¬ (0 ≤ (dmdaSelect cfgNaN).bestInCtx)
      ∧ tget (dmdaSelect cfgNaN).P.eet
          ((dmdaSelect cfgNaN).bestInCtx, (dmdaSelect cfgNaN).selectedImpl)
        = none := by
  rw [dmdaSelect_cfgNaN_eval]
  decide

/-- C8 counterexample: a simulate push under the greedy fallback (single
worker, NaN length) selects worker 0, yet returns no defined value — the
read `exp_end[-1][0]` has no written entry — so "simulate returns the
predicted exp_end of the selected candidate" fails on this input. -/
theorem simulateForcedHasNoReturnValue :
    (dmdaPushTask cfgNaN tsk0 false true 0).sel.best = 0
      ∧ (dmdaPushTask cfgNaN tsk0 false true 0).value = none := by
  have hp : dmdaPushTask cfgNaN tsk0 false true 0
      = { workers := cfgNaN.workers, ret := none,
          value := tget (dmdaSelect cfgNaN).P.eet
            ((dmdaSelect cfgNaN).bestInCtx, (dmdaSelect cfgNaN).selectedImpl),
          sel := dmdaSelect cfgNaN } := rfl
  rw [hp, dmdaSelect_cfgNaN_eval]
  decide

theorem tget_cons_self (t : Tbl) (k : Int × Int) (v : Fl) :
    tget ((k, v) :: t) k = some v := by
  simp [tget, List.find?]

theorem tget_cons_ne (t : Tbl) (k k' : Int × Int) (v : Fl) (h : k' ≠ k) :
    tget ((k', v) :: t) k = tget t k := by
  simp [tget, List.find?, h]

theorem withIdx_fst_ge {α : Type} (l : List α) :
    ∀ (n : Nat) (q : Nat × α), q ∈ withIdx n l → n ≤ q.1 := by
  induction l with
  | nil => intro n q h; simp [withIdx] at h
  | cons x xs ih =>
      intro n q h
      simp only [withIdx] at h
      rcases List.mem_cons.mp h with hq | h2
      · rw [hq]
      · exact Nat.le_of_succ_le (ih (n + 1) q h2)

theorem withIdx_pairwise {α : Type} (l : List α) :
    ∀ (n : Nat), List.Pairwise (fun a b => a.1 < b.1) (withIdx n l) := by
  induction l with
  | nil => intro n; simp [withIdx]
  | cons x xs ih =>
      intro n
      simp only [withIdx]
      exact List.Pairwise.cons
        (fun q hq => Nat.lt_of_lt_of_le (Nat.lt_succ_self n) (withIdx_fst_ge xs (n + 1) q hq))
        (ih (n + 1))

theorem dmdaCandsBlock_ctx (q : Nat × Nat × WorkerD) (c : Cand)
    (h : c ∈ (implIdxs q.2.2).map (fun i => Cand.mk q.2.1 q.1 q.2.2 i)) :
    c.ctx = q.1 := by
  simp only [List.mem_map] at h
  obtain ⟨i, _, hh⟩ := h
  rw [← hh]

theorem dmdaCandsBlock_pairwise (q : Nat × Nat × WorkerD) :
    List.Pairwise (fun c c' : Cand => candKey c ≠ candKey c')
      ((implIdxs q.2.2).map (fun i => Cand.mk q.2.1 q.1 q.2.2 i)) := by
  rw [List.pairwise_map]
  have hnd : (implIdxs q.2.2).Nodup := (List.nodup_range maxImpls).filter _
  refine hnd.imp ?_
  intro a b hab
  simp only [candKey, ne_eq, Prod.mk.injEq, not_and]
  intro _ h2
  exact hab (by exact_mod_cast h2)

theorem listBind_cons {α β : Type} (a : α) (l : List α) (f : α → List β) :
    (a :: l).bind f = f a ++ l.bind f := rfl

theorem bind_pairwise_keyNe (L : List (Nat × Nat × WorkerD))
    (hL : List.Pairwise (fun a b => a.1 < b.1) L) :
    List.Pairwise (fun c c' : Cand => candKey c ≠ candKey c')
      (L.bind (fun q => (implIdxs q.2.2).map (fun i => Cand.mk q.2.1 q.1 q.2.2 i))) := by
  induction L with
  | nil => simp
  | cons q L ih =>
      rw [List.pairwise_cons] at hL
      obtain ⟨hrel, htail⟩ := hL
      rw [listBind_cons, List.pairwise_append]
      refine ⟨dmdaCandsBlock_pairwise q, ih htail, ?_⟩
      intro a ha b hb
      have hactx := dmdaCandsBlock_ctx q a ha
      rw [List.mem_bind] at hb
      obtain ⟨q', hq', hbq⟩ := hb
      have hbctx := dmdaCandsBlock_ctx q' b hbq
      have hlt := hrel q' hq'
      have hctx : a.ctx ≠ b.ctx := by rw [hactx, hbctx]; omega
      simp only [candKey, ne_eq, Prod.mk.injEq, not_and]
      intro h1 _
      exact hctx (by exact_mod_cast h1)

theorem dmdaCands_keyNe (ws : List WorkerD) :
    List.Pairwise (fun c c' : Cand => candKey c ≠ candKey c') (dmdaCands ws) := by
  unfold dmdaCands
  exact bind_pairwise_keyNe _ (withIdx_pairwise _ 0)

theorem p1stage1_tbl (now : ℚ) (c : Cand) (acc : PredState) :
    (p1stage1 now c acc).eet = (candKey c, candExpEndPrev now c) :: acc.eet
      ∧ (p1stage1 now c acc).ltl = acc.ltl
      ∧ (p1stage1 now c acc).ldp = acc.ldp
      ∧ (p1stage1 now c acc).le = acc.le := by
  simp only [p1stage1]
  split_ifs <;> exact ⟨rfl, rfl, rfl, rfl⟩

theorem p1stage2_tbl (c : Cand) (acc : PredState) :
    (p1stage2 c acc).eet = acc.eet
      ∧ (p1stage2 c acc).ltl
        = (if flLt (some 0) (convAt c.w c.impl) = true then
            (candKey c, lenConvOf c) :: (candKey c, lenAt c.w c.impl) :: acc.ltl
          else (candKey c, lenAt c.w c.impl) :: acc.ltl)
      ∧ (p1stage2 c acc).ldp = (candKey c, c.w.penalty) :: acc.ldp
      ∧ (p1stage2 c acc).le = (candKey c, energyAt c.w c.impl) :: acc.le := by
  simp only [p1stage2]
  split_ifs with h <;> simp [h]

theorem p1stage3_tbl (c : Cand) (acc : PredState) :
    (p1stage3 c acc).eet = acc.eet ∧ (p1stage3 c acc).ltl = acc.ltl
      ∧ (p1stage3 c acc).ldp = acc.ldp ∧ (p1stage3 c acc).le = acc.le := by
  simp only [p1stage3]
  split_ifs <;> exact ⟨rfl, rfl, rfl, rfl⟩

theorem p1stage4_tbl (c : Cand) (acc : PredState) :
    (p1stage4 c acc).eet = acc.eet ∧ (p1stage4 c acc).ltl = acc.ltl
      ∧ (p1stage4 c acc).ldp = acc.ldp ∧ (p1stage4 c acc).le = acc.le := by
  simp only [p1stage4]
  split_ifs <;> exact ⟨rfl, rfl, rfl, rfl⟩

theorem p1stage5_tbl (c : Cand) (acc : PredState) :
    (p1stage5 c acc).eet = acc.eet ∧ (p1stage5 c acc).ltl = acc.ltl
      ∧ (p1stage5 c acc).ldp = acc.ldp ∧ (p1stage5 c acc).le = acc.le := by
  simp only [p1stage5]
  split_ifs <;> exact ⟨rfl, rfl, rfl, rfl⟩

theorem p1stage6_tbl_go (now : ℚ) (c : Cand) (acc : PredState)
    (h : acc.unknown = false) :
    (p1stage6 now c acc).eet = (candKey c, candExpEnd now c) :: acc.eet
      ∧ (p1stage6 now c acc).ltl = acc.ltl
      ∧ (p1stage6 now c acc).ldp = acc.ldp
      ∧ (p1stage6 now c acc).le
        = (if energyAt c.w c.impl = none then
            (candKey c, some 0) :: acc.le
          else acc.le) := by
  simp only [p1stage6, h]
  split_ifs with h1 h2 h2 <;> simp_all

theorem p1stage6_tbl_stop (now : ℚ) (c : Cand) (acc : PredState)
    (h : acc.unknown = true) :
    p1stage6 now c acc = acc := by
  simp only [p1stage6, h, if_true]

theorem p1step_tbl (now : ℚ) (acc : PredState) (c : Cand)
    (hu : acc.unknown = false) (hb : ¬ badLen c) :
    tget (p1step now acc c).eet (candKey c) = some (candExpEnd now c)
      ∧ tget (p1step now acc c).le (candKey c)
          = some (zeroIfNaN (energyAt c.w c.impl))
      ∧ tget (p1step now acc c).ltl (candKey c) = some (lenConvOf c)
      ∧ tget (p1step now acc c).ldp (candKey c) = some c.w.penalty := by
  unfold p1step
  have h5u : (p1stage5 c (p1stage4 c (p1stage3 c (p1stage2 c (p1stage1 now c acc))))).unknown
      = false := by
    by_contra hh
    have hh2 : (p1stage5 c (p1stage4 c (p1stage3 c (p1stage2 c (p1stage1 now c acc))))).unknown
        = true := by
      cases hx : (p1stage5 c (p1stage4 c (p1stage3 c (p1stage2 c (p1stage1 now c acc))))).unknown
      · exact absurd hx hh
      · rfl
    rcases (p1stage5_unknown_iff c _).mp hh2 with ha | hbad
    · rw [p1stage4_unknown, p1stage3_unknown, p1stage2_unknown, p1stage1_unknown] at ha
      rw [hu] at ha
      exact Bool.false_ne_true ha
    · exact hb hbad
  obtain ⟨he6, hl6, hd6, hen6⟩ := p1stage6_tbl_go now c _ h5u
  obtain ⟨he5, hl5, hd5, hen5⟩ := p1stage5_tbl c (p1stage4 c (p1stage3 c (p1stage2 c (p1stage1 now c acc))))
  obtain ⟨he4, hl4, hd4, hen4⟩ := p1stage4_tbl c (p1stage3 c (p1stage2 c (p1stage1 now c acc)))
  obtain ⟨he3, hl3, hd3, hen3⟩ := p1stage3_tbl c (p1stage2 c (p1stage1 now c acc))
  obtain ⟨he2, hl2, hd2, hen2⟩ := p1stage2_tbl c (p1stage1 now c acc)
  obtain ⟨he1, hl1, hd1, hen1⟩ := p1stage1_tbl now c acc
  refine ⟨?_, ?_, ?_, ?_⟩
  · rw [he6, tget_cons_self]
  · rw [hen6]
    by_cases hE : energyAt c.w c.impl = none
    · rw [if_pos hE, tget_cons_self, zeroIfNaN, if_pos hE]
    · rw [if_neg hE, hen5, hen4, hen3, hen2, tget_cons_self, zeroIfNaN, if_neg hE]
  · rw [hl6, hl5, hl4, hl3, hl2]
    by_cases hC : flLt (some 0) (convAt c.w c.impl) = true
    · rw [if_pos hC, tget_cons_self]
    · rw [if_neg hC, tget_cons_self, lenConvOf, if_neg hC]
  · rw [hd6, hd5, hd4, hd3, hd2, tget_cons_self]

theorem p1stage_tget_ne_all (now : ℚ) (acc : PredState) (c : Cand)
    (k : Int × Int) (h : candKey c ≠ k) :
    tget (p1step now acc c).eet k = tget acc.eet k
      ∧ tget (p1step now acc c).ltl k = tget acc.ltl k
      ∧ tget (p1step now acc c).ldp k = tget acc.ldp k
      ∧ tget (p1step now acc c).le k = tget acc.le k := by
  unfold p1step
  obtain ⟨he5, hl5, hd5, hen5⟩ := p1stage5_tbl c (p1stage4 c (p1stage3 c (p1stage2 c (p1stage1 now c acc))))
  obtain ⟨he4, hl4, hd4, hen4⟩ := p1stage4_tbl c (p1stage3 c (p1stage2 c (p1stage1 now c acc)))
  obtain ⟨he3, hl3, hd3, hen3⟩ := p1stage3_tbl c (p1stage2 c (p1stage1 now c acc))
  obtain ⟨he2, hl2, hd2, hen2⟩ := p1stage2_tbl c (p1stage1 now c acc)
  obtain ⟨he1, hl1, hd1, hen1⟩ := p1stage1_tbl now c acc
  cases h6 : (p1stage5 c (p1stage4 c (p1stage3 c (p1stage2 c (p1stage1 now c acc))))).unknown with
  | true =>
      rw [p1stage6_tbl_stop now c _ h6]
      refine ⟨?_, ?_, ?_, ?_⟩
      · rw [he5, he4, he3, he2, he1, tget_cons_ne _ _ _ _ h]
      · rw [hl5, hl4, hl3]
        by_cases hC : flLt (some 0) (convAt c.w c.impl) = true
        · rw [hl2, if_pos hC, tget_cons_ne _ _ _ _ h, tget_cons_ne _ _ _ _ h, hl1]
        · rw [hl2, if_neg hC, tget_cons_ne _ _ _ _ h, hl1]
      · rw [hd5, hd4, hd3, hd2, tget_cons_ne _ _ _ _ h, hd1]
      · rw [hen5, hen4, hen3, hen2, tget_cons_ne _ _ _ _ h, hen1]
  | false =>
      obtain ⟨he6, hl6, hd6, hen6⟩ := p1stage6_tbl_go now c _ h6
      refine ⟨?_, ?_, ?_, ?_⟩
      · rw [he6, tget_cons_ne _ _ _ _ h, he5, he4, he3, he2, he1,
            tget_cons_ne _ _ _ _ h]
      · rw [hl6, hl5, hl4, hl3]
        by_cases hC : flLt (some 0) (convAt c.w c.impl) = true
        · rw [hl2, if_pos hC, tget_cons_ne _ _ _ _ h, tget_cons_ne _ _ _ _ h, hl1]
        · rw [hl2, if_neg hC, tget_cons_ne _ _ _ _ h, hl1]
      · rw [hd6, hd5, hd4, hd3, hd2, tget_cons_ne _ _ _ _ h, hd1]
      · rw [hen6]
        by_cases hE : energyAt c.w c.impl = none
        · rw [if_pos hE, tget_cons_ne _ _ _ _ h, hen5, hen4, hen3, hen2,
              tget_cons_ne _ _ _ _ h, hen1]
        · rw [if_neg hE, hen5, hen4, hen3, hen2, tget_cons_ne _ _ _ _ h, hen1]

theorem p1fold_tget_ne (now : ℚ) (cs : List Cand) (k : Int × Int)
    (h : ∀ c ∈ cs, candKey c ≠ k) :
    ∀ acc : PredState,
      tget ((cs.foldl (p1step now) acc)).eet k = tget acc.eet k
        ∧ tget ((cs.foldl (p1step now) acc)).ltl k = tget acc.ltl k
        ∧ tget ((cs.foldl (p1step now) acc)).ldp k = tget acc.ldp k
        ∧ tget ((cs.foldl (p1step now) acc)).le k = tget acc.le k := by
  induction cs with
  | nil => intro acc; exact ⟨rfl, rfl, rfl, rfl⟩
  | cons c cs ih =>
      intro acc
      rw [List.foldl_cons]
      obtain ⟨ih1, ih2, ih3, ih4⟩ :=
        ih (fun d hd => h d (List.mem_cons_of_mem c hd)) (p1step now acc c)
      obtain ⟨s1, s2, s3, s4⟩ :=
        p1stage_tget_ne_all now acc c k (h c (List.mem_cons_self c cs))
      exact ⟨ih1.trans s1, ih2.trans s2, ih3.trans s3, ih4.trans s4⟩

theorem p1fold_char (now : ℚ) (cs : List Cand)
    (hnd : List.Pairwise (fun c c' : Cand => candKey c ≠ candKey c') cs) :
    ∀ acc : PredState, (cs.foldl (p1step now) acc).unknown = false →
      ∀ c ∈ cs,
        tget ((cs.foldl (p1step now) acc)).eet (candKey c)
            = some (candExpEnd now c)
          ∧ tget ((cs.foldl (p1step now) acc)).le (candKey c)
            = some (zeroIfNaN (energyAt c.w c.impl))
          ∧ tget ((cs.foldl (p1step now) acc)).ltl (candKey c)
            = some (lenConvOf c)
          ∧ tget ((cs.foldl (p1step now) acc)).ldp (candKey c)
            = some c.w.penalty := by
  induction cs with
  | nil => intro acc _ c hc; simp at hc
  | cons d cs ih =>
      intro acc hu c hc
      rw [List.pairwise_cons] at hnd
      obtain ⟨hdk, htail⟩ := hnd
      rw [List.foldl_cons] at hu ⊢
      rcases List.mem_cons.mp hc with hcd | hcm
      · obtain ⟨hacc, hgood⟩ := p1fold_unknown_false now (d :: cs) acc
          (by rw [List.foldl_cons]; exact hu)
        obtain ⟨g1, g2, g3, g4⟩ := p1step_tbl now acc d hacc
          (hgood d (List.mem_cons_self d cs))
        obtain ⟨n1, n2, n3, n4⟩ := p1fold_tget_ne now cs (candKey d)
          (fun e he => (hdk e he).symm) (p1step now acc d)
        rw [hcd]
        exact ⟨n1.trans g1, n4.trans g2, n2.trans g3, n3.trans g4⟩
      · exact ih htail (p1step now acc d) hu c hcm

theorem p2step_fitT_self (cfg : DmdaCfg) (P : PredState) (acc : FitState)
    (c : Cand) :
    tget (p2step cfg P acc c).fitT (candKey c) = some (fitOf cfg P c) := by
  simp only [p2step]
  split_ifs <;> simp [tget_cons_self]

theorem p2step_fitT_ne (cfg : DmdaCfg) (P : PredState) (acc : FitState)
    (c : Cand) (k : Int × Int) (h : candKey c ≠ k) :
    tget (p2step cfg P acc c).fitT k = tget acc.fitT k := by
  simp only [p2step]
  split_ifs <;> simp [tget_cons_ne _ _ _ _ h]

theorem p2fold_fitT_ne (cfg : DmdaCfg) (P : PredState) (cs : List Cand)
    (k : Int × Int) (h : ∀ c ∈ cs, candKey c ≠ k) :
    ∀ acc : FitState,
      tget ((cs.foldl (p2step cfg P) acc)).fitT k = tget acc.fitT k := by
  induction cs with
  | nil => intro acc; rfl
  | cons c cs ih =>
      intro acc
      rw [List.foldl_cons]
      exact (ih (fun d hd => h d (List.mem_cons_of_mem c hd)) (p2step cfg P acc c)).trans
        (p2step_fitT_ne cfg P acc c k (h c (List.mem_cons_self c cs)))

theorem p2fold_fitT_char (cfg : DmdaCfg) (P : PredState) (cs : List Cand)
    (hnd : List.Pairwise (fun c c' : Cand => candKey c ≠ candKey c') cs) :
    ∀ acc : FitState, ∀ c ∈ cs,
      tget ((cs.foldl (p2step cfg P) acc)).fitT (candKey c)
        = some (fitOf cfg P c) := by
  induction cs with
  | nil => intro acc c hc; simp at hc
  | cons d cs ih =>
      intro acc c hc
      rw [List.pairwise_cons] at hnd
      obtain ⟨hdk, htail⟩ := hnd
      rw [List.foldl_cons]
      rcases List.mem_cons.mp hc with hcd | hcm
      · rw [hcd]
        exact (p2fold_fitT_ne cfg P cs (candKey d)
          (fun e he => (hdk e he).symm) (p2step cfg P acc d)).trans
          (p2step_fitT_self cfg P acc d)
      · exact ih htail (p2step cfg P acc d) c hcm

theorem fitOf_eq_claimFitness (cfg : DmdaCfg) (P : PredState) (c : Cand)
    (he : tget P.eet (candKey c) = some (candExpEnd cfg.now c))
    (hd : tget P.ldp (candKey c) = some c.w.penalty)
    (hen : tget P.le (candKey c) = some (zeroIfNaN (energyAt c.w c.impl))) :
    fitOf cfg P c = claimFitness cfg P.bestExpEnd P.maxExpEnd c := by
  simp only [fitOf, claimFitness, he, hd, hen, Option.getD_some]

/-- C4: in the DMDA decision, every candidate that reaches fitness evaluation
(the fitness loop runs exactly when no candidate had NaN or zero length) gets
fitness alpha·(exp_end − best_exp_end) + beta·data_penalty + gamma·energy,
with the idle-power term gamma·idle_power·(exp_end − max_exp_end)/1e6 added
exactly when exp_end > max_exp_end, and with a NaN oracle energy treated
as 0. -/
theorem dmdaFitnessFormula (cfg : DmdaCfg)
    (hu : (computeAllPerformancePredictions cfg).P.unknown = false)
    (c : Cand) (hc : c ∈ dmdaCands cfg.workers) :
    tget (dmdaFitTable cfg) (candKey c)
      = some (claimFitness cfg
          (computeAllPerformancePredictions cfg).P.bestExpEnd
          (computeAllPerformancePredictions cfg).P.maxExpEnd c) := by
  have hnd := dmdaCands_keyNe cfg.workers
  rw [computeAll_P] at hu
  obtain ⟨he, hen, hl, hd⟩ := p1fold_char cfg.now (dmdaCands cfg.workers) hnd
    predInit hu c hc
  unfold dmdaFitTable
  rw [p2fold_fitT_char cfg (computeAllPerformancePredictions cfg).P
    (dmdaCands cfg.workers) hnd fitInit c hc]
  rw [fitOf_eq_claimFitness cfg (computeAllPerformancePredictions cfg).P c
    (by rw [computeAll_P]; exact he) (by rw [computeAll_P]; exact hd)
    (by rw [computeAll_P]; exact hen)]

theorem cfgKnown_unknown_false :
    (computeAllPerformancePredictions cfgKnown).P.unknown = false := by
  rw [computeAll_P, show dmdaCands cfgKnown.workers = [⟨0, 0, wKnown, 0⟩] from rfl]
  show (p1step cfgKnown.now predInit ⟨0, 0, wKnown, 0⟩).unknown = false
  cases hx : (p1step cfgKnown.now predInit ⟨0, 0, wKnown, 0⟩).unknown
  · rfl
  · exfalso
    rcases (p1step_unknown_iff _ _ _).mp hx with ha | hb
    · simp [predInit] at ha
    · rcases hb with h1 | h1 <;> revert h1 <;>
        norm_num [lenConvOf, convAt, lenAt, wKnown, flLt, fadd,
          Option.some_ne_none, Option.some.injEq]

/-- Witness for C4 at the one-worker configuration with a calibrated model. -/
theorem dmdaFitnessFormulaWitness :
    (computeAllPerformancePredictions cfgKnown).P.unknown = false
      ∧ tget (dmdaFitTable cfgKnown) (candKey ⟨0, 0, wKnown, 0⟩)
        = some (claimFitness cfgKnown
            (computeAllPerformancePredictions cfgKnown).P.bestExpEnd
            (computeAllPerformancePredictions cfgKnown).P.maxExpEnd
            ⟨0, 0, wKnown, 0⟩) :=
  ⟨cfgKnown_unknown_false,
   dmdaFitnessFormula cfgKnown cfgKnown_unknown_false ⟨0, 0, wKnown, 0⟩ (by
     rw [show dmdaCands cfgKnown.workers = [⟨0, 0, wKnown, 0⟩] from rfl]
     exact List.mem_singleton.mpr rfl)⟩

theorem dmdaSelect_forcedBest (cfg : DmdaCfg) :
    (dmdaSelect cfg).forcedBest
      = (computeAllPerformancePredictions cfg).forcedWorker := by
  simp only [dmdaSelect]
  split_ifs with h
  · exact h.symm
  · rfl

theorem dmdaSelect_notForced_fields (cfg : DmdaCfg)
    (h : (computeAllPerformancePredictions cfg).forcedWorker = -1) :
    (dmdaSelect cfg).best
        = ((dmdaCands cfg.workers).foldl
            (p2step cfg (computeAllPerformancePredictions cfg).P) fitInit).best
      ∧ (dmdaSelect cfg).bestInCtx
        = ((dmdaCands cfg.workers).foldl
            (p2step cfg (computeAllPerformancePredictions cfg).P) fitInit).bestInCtx
      ∧ (dmdaSelect cfg).selectedImpl
        = (((dmdaCands cfg.workers).foldl
            (p2step cfg (computeAllPerformancePredictions cfg).P) fitInit).selectedImpl : Int)
      ∧ (dmdaSelect cfg).P = (computeAllPerformancePredictions cfg).P := by
  simp only [dmdaSelect]
  rw [if_pos h]
  exact ⟨rfl, rfl, rfl, rfl⟩

theorem p2step_sel_cases (cfg : DmdaCfg) (P : PredState) (acc : FitState)
    (c : Cand) :
    ((p2step cfg P acc c).best = acc.best
        ∧ (p2step cfg P acc c).bestInCtx = acc.bestInCtx
        ∧ (p2step cfg P acc c).selectedImpl = acc.selectedImpl)
      ∨ ((p2step cfg P acc c).best = (c.wid : Int)
        ∧ (p2step cfg P acc c).bestInCtx = (c.ctx : Int)
        ∧ (p2step cfg P acc c).selectedImpl = c.impl) := by
  simp only [p2step]
  split_ifs <;> simp

theorem p2fold_provenance (cfg : DmdaCfg) (P : PredState) (cs : List Cand) :
    ∀ acc : FitState,
      (((cs.foldl (p2step cfg P) acc)).best = acc.best
          ∧ ((cs.foldl (p2step cfg P) acc)).bestInCtx = acc.bestInCtx
          ∧ ((cs.foldl (p2step cfg P) acc)).selectedImpl = acc.selectedImpl)
        ∨ ∃ c ∈ cs, ((cs.foldl (p2step cfg P) acc)).best = (c.wid : Int)
            ∧ ((cs.foldl (p2step cfg P) acc)).bestInCtx = (c.ctx : Int)
            ∧ ((cs.foldl (p2step cfg P) acc)).selectedImpl = c.impl := by
  induction cs with
  | nil => intro acc; left; exact ⟨rfl, rfl, rfl⟩
  | cons d cs ih =>
      intro acc
      rw [List.foldl_cons]
      rcases ih (p2step cfg P acc d) with ⟨h1, h2, h3⟩ | ⟨c, hc, h1, h2, h3⟩
      · rcases p2step_sel_cases cfg P acc d with ⟨g1, g2, g3⟩ | ⟨g1, g2, g3⟩
        · left; exact ⟨h1.trans g1, h2.trans g2, h3.trans g3⟩
        · right
          exact ⟨d, List.mem_cons_self d cs, h1.trans g1, h2.trans g2, h3.trans g3⟩
      · right; exact ⟨c, List.mem_cons_of_mem d hc, h1, h2, h3⟩

/-- C8 (amended): a `simulate` push leaves the whole worker/FIFO snapshot
unchanged, and when no candidate had unknown length (`forced_best = -1`) and
a candidate was selected, the returned value is the selected candidate's
predicted end `exp_start + exp_len + length`.  When the greedy fallback fires
instead, the array read is out of bounds and yields no defined value (see the
counterexample and C9); the FIFOs are still unchanged. -/
theorem simulateReturnsSelectedExpEndWithoutCommit (cfg : DmdaCfg) (t : STask)
    (prio : Bool) (sr : Int)
    (hf : (dmdaSelect cfg).forcedBest = -1)
    (hb : (dmdaSelect cfg).best ≠ -1) :
    (dmdaPushTask cfg t prio true sr).workers = cfg.workers
      ∧ ∃ c ∈ dmdaCands cfg.workers,
          (dmdaSelect cfg).best = (c.wid : Int)
          ∧ (dmdaSelect cfg).bestInCtx = (c.ctx : Int)
          ∧ (dmdaSelect cfg).selectedImpl = (c.impl : Int)
          ∧ (dmdaPushTask cfg t prio true sr).value
            = some (candExpEnd cfg.now c) := by
  have hfw : (computeAllPerformancePredictions cfg).forcedWorker = -1 := by
    rw [← dmdaSelect_forcedBest]; exact hf
  have hu : (computeAllPerformancePredictions cfg).P.unknown = false :=
    (forcedWorker_eq_neg1_iff cfg).mp hfw
  obtain ⟨hsb, hsc, hsi, hsp⟩ := dmdaSelect_notForced_fields cfg hfw
  have hval : (dmdaPushTask cfg t prio true sr).value
      = tget (dmdaSelect cfg).P.eet
          ((dmdaSelect cfg).bestInCtx, (dmdaSelect cfg).selectedImpl) := rfl
  refine ⟨rfl, ?_⟩
  rcases p2fold_provenance cfg (computeAllPerformancePredictions cfg).P
      (dmdaCands cfg.workers) fitInit with ⟨h1, _, _⟩ | ⟨c, hc, h1, h2, h3⟩
  · exact absurd (hsb.trans h1) hb
  · refine ⟨c, hc, ?_, ?_, ?_, ?_⟩
    · rw [hsb, h1]
    · rw [hsc, h2]
    · rw [hsi, h3]
    · rw [hval, hsp, hsc, h2, hsi, h3, computeAll_P]
      exact (p1fold_char cfg.now (dmdaCands cfg.workers)
        (dmdaCands_keyNe cfg.workers) predInit
        (by rw [← computeAll_P]; exact hu) c hc).1

theorem p2step_best_set (cfg : DmdaCfg) (P : PredState) (acc : FitState)
    (c : Cand) (h : acc.best = -1) :
    (p2step cfg P acc c).best = (c.wid : Int) := by
  simp only [p2step]
  rw [if_pos (Or.inl h)]

/-- Witness for the amended C8 at the calibrated one-worker configuration. -/
theorem simulateReturnsSelectedExpEndWitness :
    (dmdaSelect cfgKnown).forcedBest = -1
      ∧ (dmdaSelect cfgKnown).best ≠ -1
      ∧ ((dmdaPushTask cfgKnown tsk0 false true 0).workers = cfgKnown.workers
        ∧ ∃ c ∈ dmdaCands cfgKnown.workers,
            (dmdaSelect cfgKnown).best = (c.wid : Int)
            ∧ (dmdaSelect cfgKnown).bestInCtx = (c.ctx : Int)
            ∧ (dmdaSelect cfgKnown).selectedImpl = (c.impl : Int)
            ∧ (dmdaPushTask cfgKnown tsk0 false true 0).value
              = some (candExpEnd cfgKnown.now c)) := by
  have hfw : (computeAllPerformancePredictions cfgKnown).forcedWorker = -1 := by
    rw [computeAll_forced, cfgKnown_unknown_false]
    simp
  have hf : (dmdaSelect cfgKnown).forcedBest = -1 := by
    rw [dmdaSelect_forcedBest]
    exact hfw
  have hb : (dmdaSelect cfgKnown).best ≠ -1 := by
    rw [(dmdaSelect_notForced_fields cfgKnown hfw).1,
        show dmdaCands cfgKnown.workers = [⟨0, 0, wKnown, 0⟩] from rfl]
    show (p2step cfgKnown (computeAllPerformancePredictions cfgKnown).P fitInit
        ⟨0, 0, wKnown, 0⟩).best ≠ -1
    rw [p2step_best_set cfgKnown _ fitInit ⟨0, 0, wKnown, 0⟩ rfl]
    decide
  exact ⟨hf, hb,
    simulateReturnsSelectedExpEndWithoutCommit cfgKnown tsk0 false 0 hf hb⟩
